import Mathlib

/-
Verification of the HTML→ODT forward converter and the ODT→Markdown reverse
extractor of edtext_md2x (src/app.py).

The forward path is the `HTMLtoODT` parser class inside `download_odt`:
an event-driven walk over start/end/text events that maintains a current
paragraph, a style stack and a growing document body, plus the image
embedding logic of `add_image`.  The reverse path is
`extract_text_from_elements` inside `import_odt`: a recursive walk over a
loaded ODT element tree producing Markdown-like text.

Python strings are modelled by Lean `String`; the handful of Python string
operations used by the code (substring membership, `startswith`, `replace`,
`split`, `str.capitalize`, `strip`) are re-implemented below by structural
recursion over character lists so every definition evaluates in the kernel.
Python float arithmetic in the image-size computation is modelled over `ℚ`.
-/

namespace MdOdt

/-! ### String helpers mirroring the Python string operations -/

/-- `pat` occurs as a contiguous run inside `s` (Python `pat in s`). -/
def occursCh (pat : List Char) : List Char → Bool
  | [] => pat.isEmpty
  | c :: t => pat.isPrefixOf (c :: t) || occursCh pat t

/-- Python `pat in s` for strings. -/
def strContains (s pat : String) : Bool := occursCh pat.data s.data

/-- Python `s.startswith(pat)`. -/
def strStarts (s pat : String) : Bool := pat.data.isPrefixOf s.data

/-- Fuel-driven replacement of every occurrence of `pat`; fuel is the length
of the subject so it always suffices for non-empty `pat`. -/
def replaceAllAux (pat rep : List Char) : Nat → List Char → List Char
  | 0, s => s
  | _ + 1, [] => []
  | n + 1, c :: t =>
    if pat.isPrefixOf (c :: t) then rep ++ replaceAllAux pat rep n ((c :: t).drop pat.length)
    else c :: replaceAllAux pat rep n t

/-- Python `s.replace(pat, rep)` for non-empty `pat`. -/
def strReplace (s pat rep : String) : String :=
  ⟨replaceAllAux pat.data rep.data s.data.length s.data⟩

/-- Fuel-driven split on every occurrence of `pat`. -/
def splitAllAux (pat : List Char) : Nat → List Char → List Char → List (List Char)
  | 0, s, acc => [acc.reverse ++ s]
  | _ + 1, [], acc => [acc.reverse]
  | n + 1, c :: t, acc =>
    if pat.isPrefixOf (c :: t) then acc.reverse :: splitAllAux pat n ((c :: t).drop pat.length) []
    else splitAllAux pat n t (c :: acc)

/-- Python `s.split(pat)` for non-empty `pat`. -/
def strSplit (s pat : String) : List String :=
  (splitAllAux pat.data s.data.length s.data []).map fun l => ⟨l⟩

/-- Split at the first occurrence of `pat`: the part before and the part
after, or `none` when `pat` does not occur. -/
def splitFirstCh (pat : List Char) : List Char → Option (List Char × List Char)
  | [] => none
  | c :: t =>
    if pat.isPrefixOf (c :: t) then some ([], (c :: t).drop pat.length)
    else (splitFirstCh pat t).map fun p => (c :: p.1, p.2)

/-- Split a character list at the first occurrence of `ch`; the second
component starts with `ch` when it occurs. -/
def breakAtCh (ch : Char) : List Char → List Char × List Char
  | [] => ([], [])
  | c :: t =>
    if c == ch then ([], c :: t)
    else
      let p := breakAtCh ch t
      (c :: p.1, p.2)

/-- Python `str.capitalize()`: first character uppercased, rest lowercased. -/
def pyCapitalize (s : String) : String :=
  match s.data with
  | [] => ""
  | c :: t => ⟨c.toUpper :: t.map Char.toLower⟩

/-- Truthiness of Python `data.strip()`: some character is non-whitespace. -/
def hasContent (s : String) : Bool := s.data.any fun c => !c.isWhitespace

/-- Python `s.strip()`: whitespace removed from both ends. -/
def pyStrip (s : String) : String :=
  ⟨((s.data.dropWhile Char.isWhitespace).reverse.dropWhile Char.isWhitespace).reverse⟩

/-! ### The event stream (§3 Event) fed to the `HTMLtoODT` handlers -/

/-- One event of the markup event stream: html.parser calls
`handle_starttag`, `handle_endtag` and `handle_data` with exactly this
information. -/
inductive Event where
  | startTag (tag : String) (attrs : List (String × String))
  | endTag (tag : String)
  | text (data : String)
deriving DecidableEq

/-- Python `dict(attrs).get(key, dflt)`: with duplicate keys the last
binding wins, hence the search over the reversed list. -/
def attrGet (attrs : List (String × String)) (key dflt : String) : String :=
  match attrs.reverse.find? (fun p => p.1 == key) with
  | some p => p.2
  | none => dflt

/-! ### The document model built by the forward path -/

/-- One run added to the current paragraph by `handle_data`:
`addText(data)` (plain) or a `Span(stylename=...)` wrapping the text. -/
inductive Run where
  | plain (text : String)
  | styled (text : String) (styleName : String)
deriving DecidableEq

/-- Kind of the current block: `P()` or `H(outlinelevel=level)`. -/
inductive BlockKind where
  | para
  | heading (outlinelevel : Nat)
deriving DecidableEq

/-- A paragraph or heading under construction or appended to the body. -/
structure Block where
  kind : BlockKind
  runs : List Run
deriving DecidableEq

/-- A freshly constructed empty `P()`. -/
def emptyP : Block := ⟨.para, []⟩

/-- The frame data `add_image` computes for an embedded image. -/
structure ImageFrame where
  path : String
  widthIn : ℚ
  heightIn : ℚ
deriving DecidableEq

/-- One element appended to `doc.text`: a flushed paragraph/heading block,
or the paragraph wrapping an image frame that `add_image` appends. -/
inductive BodyNode where
  | block (b : Block)
  | imagePara (f : ImageFrame)
deriving DecidableEq

/-- The mutable state of the `HTMLtoODT` parser: `current_para`,
`style_stack` and the accumulated `doc.text` body.  The Python list used as
a stack (append/pop at the end, `[-1]` is the top) is modelled with the
top of the stack at the HEAD of the Lean list. -/
structure ConvState where
  currentPara : Option Block
  styleStack : List String
  body : List BodyNode
deriving DecidableEq

/-- Parser state at construction time. -/
def initState : ConvState := ⟨none, [], []⟩

/-! ### Image embedding (`add_image`) -/

/-- The recognized highlight color names: keys of `color_map` /
`highlight_styles`, and the list iterated over for `hl-<color>` classes. -/
def colorList : List String := ["yellow", "green", "blue", "gray", "orange", "purple"]

/-- `max_width_in = 6.0`. -/
def maxWidthIn : ℚ := 6

/-- `dpi = 96`. -/
def dpi : ℚ := 96

/-- The print-size computation of `add_image`: divide the pixel sizes by the
DPI and rescale both dimensions when the width exceeds `max_width_in`. -/
def computePrintSize (widthPx heightPx : Nat) : ℚ × ℚ :=
  let widthIn : ℚ := (widthPx : ℚ) / dpi
  let heightIn : ℚ := (heightPx : ℚ) / dpi
  if maxWidthIn < widthIn then
    let scale := maxWidthIn / widthIn
    (maxWidthIn, heightIn * scale)
  else
    (widthIn, heightIn)

/-- Result of urllib.parse.urlparse as far as `add_image` consumes it. -/
structure ParsedUrl where
  scheme : String
  netloc : String
  path : String
deriving DecidableEq

/-- Partial model of `urllib.parse.urlparse`, covering the URL shapes this
converter receives: a source with a `://` separator is split into scheme,
netloc and path; anything else is all path with an empty scheme (which is
what urlparse returns for route paths such as `/images/x.png` and for bare
relative file names). -/
def urlparse (s : String) : ParsedUrl :=
  match splitFirstCh "://".data s.data with
  | some (sch, rest) =>
    let p := breakAtCh '/' rest
    ⟨⟨sch⟩, ⟨p.1⟩, ⟨p.2⟩⟩
  | none => ⟨"", "", s⟩

/-- posix `os.path.join` for the two-argument uses in `add_image`: an
absolute second component replaces the first. -/
def joinPath (a b : String) : String :=
  if strStarts b "/" then b
  else if a = "" then b
  else if a.data.getLast? = some '/' then a ++ b
  else a ++ "/" ++ b

/-- The filesystem facts `add_image` consults, as an environment:
`imageFolder` is `app.config["IMAGE_FOLDER"]`; `pixelSize p` is
`some (width_px, height_px)` when the file at `p` exists and PIL can read
its size, and `none` when it is missing or unreadable (either way the image
is skipped). -/
structure ImageEnv where
  imageFolder : String
  pixelSize : String → Option (Nat × Nat)

/-- The tail of `add_image` once a candidate path is resolved: look the file
up, compute the print size, and build the frame; `none` means skip. -/
def resolveFrame (env : ImageEnv) (imgPath : String) : Option ImageFrame :=
  match env.pixelSize imgPath with
  | none => none
  | some wh =>
    let s := computePrintSize wh.1 wh.2
    some ⟨imgPath, s.1, s.2⟩

/-- `HTMLtoODT.add_image`: parse the src; a path under the `/images/` route
is resolved against the image folder; otherwise an `http`/`https` scheme is
skipped; otherwise the path is taken root-relative under the image folder.
`unquote` (percent decoding) is modelled as the identity — no claim
depends on percent-encoded sources. -/
def addImage (env : ImageEnv) (imgSrc : String) : Option ImageFrame :=
  let parsed := urlparse imgSrc
  if strStarts parsed.path "/images/" then
    let imgFilename := (strSplit parsed.path "/images/").getLastD ""
    resolveFrame env (joinPath env.imageFolder imgFilename)
  else if parsed.scheme = "http" ∨ parsed.scheme = "https" then
    none
  else
    let imgFilename : String := ⟨parsed.path.data.dropWhile (fun c => c == '/')⟩
    resolveFrame env (joinPath env.imageFolder imgFilename)

/-! ### The event handlers -/

/-- `HTMLtoODT.handle_starttag`, one branch per `elif` of the source. -/
def handleStart (env : ImageEnv) (st : ConvState) (tag : String)
    (attrs : List (String × String)) : ConvState :=
  if tag = "p" ∨ tag = "div" then
    { st with currentPara := some emptyP }
  else if tag ∈ (["h1", "h2", "h3", "h4", "h5", "h6"] : List String) then
    let level := (tag.data.getD 1 '0').toNat - '0'.toNat
    { st with currentPara := some ⟨.heading level, []⟩ }
  else if tag = "strong" ∨ tag = "b" then
    { st with styleStack := "bold" :: st.styleStack }
  else if tag = "em" ∨ tag = "i" then
    { st with styleStack := "italic" :: st.styleStack }
  else if tag = "span" then
    let classAttr := attrGet attrs "class" ""
    if strContains classAttr "text-highlight" then
      match colorList.find? (fun color => strContains classAttr ("hl-" ++ color)) with
      | some color => { st with styleStack := ("highlight-" ++ color) :: st.styleStack }
      | none => st
    else st
  else if tag = "mark" then
    let color := attrGet attrs "data-color" ""
    if color = "" then st
    else { st with styleStack := ("highlight-" ++ color) :: st.styleStack }
  else if tag = "br" then
    let cur := st.currentPara.getD emptyP
    { st with body := st.body ++ [.block cur], currentPara := some emptyP }
  else if tag = "img" then
    let imgSrc := attrGet attrs "src" ""
    if imgSrc = "" then st
    else
      let flushed :=
        match st.currentPara with
        | some b => st.body ++ [.block b]
        | none => st.body
      let body2 :=
        match addImage env imgSrc with
        | some f => flushed ++ [.imagePara f]
        | none => flushed
      { st with body := body2, currentPara := some emptyP }
  else st

/-- `HTMLtoODT.handle_endtag`. -/
def handleEnd (st : ConvState) (tag : String) : ConvState :=
  if tag ∈ (["p", "div", "h1", "h2", "h3", "h4", "h5", "h6"] : List String) then
    match st.currentPara with
    | some b => { st with body := st.body ++ [.block b], currentPara := none }
    | none => st
  else if tag ∈ (["strong", "b", "em", "i", "mark"] : List String) then
    match st.styleStack with
    | _ :: rest => { st with styleStack := rest }
    | [] => st
  else if tag = "span" then
    match st.styleStack with
    | top :: rest =>
      if strStarts top "highlight-" then { st with styleStack := rest } else st
    | [] => st
  else st

/-- The run `handle_data` builds for non-whitespace data given the current
style stack: the stack top decides; a highlight entry whose color is in
`highlight_styles` yields the corresponding highlight span, an unknown
color falls back to `addText` (a plain run), bold/italic entries yield a
span named by `str.capitalize`. -/
def styledRun (styleStack : List String) (data : String) : Run :=
  match styleStack with
  | styleName :: _ =>
    if strStarts styleName "highlight-" then
      let color := strReplace styleName "highlight-" ""
      if color ∈ colorList then .styled data ("Highlight" ++ pyCapitalize color)
      else .plain data
    else .styled data (pyCapitalize styleName)
  | [] => .plain data

/-- `HTMLtoODT.handle_data`: whitespace-only data is dropped; otherwise a
paragraph is opened if none is open and one run is appended to it. -/
def handleData (st : ConvState) (data : String) : ConvState :=
  if hasContent data then
    let cur := st.currentPara.getD emptyP
    { st with currentPara := some { cur with runs := cur.runs ++ [styledRun st.styleStack data] } }
  else st

/-- Dispatch of one event to the matching handler. -/
def handleEvent (env : ImageEnv) (st : ConvState) : Event → ConvState
  | .startTag tag attrs => handleStart env st tag attrs
  | .endTag tag => handleEnd st tag
  | .text data => handleData st data

/-- `parser.feed`: one linear pass over the event stream. -/
def processEvents (env : ImageEnv) (st : ConvState) (events : List Event) : ConvState :=
  events.foldl (handleEvent env) st

/-- The document body produced by a full forward conversion; a current
block still open when the stream ends is never flushed. -/
def forwardBody (env : ImageEnv) (events : List Event) : List BodyNode :=
  (processEvents env initState events).body

/-- Number of image-frame nodes in a body. -/
def countImageFrames (body : List BodyNode) : Nat :=
  (body.filter fun n => match n with | .imagePara _ => true | .block _ => false).length

/-! ### The reverse path: `extract_text_from_elements` -/

/- The loaded ODT element tree, one constructor per `qname[1]` value the
extractor dispatches on (`p`, `h`, `span`, `list`, `table`), plus raw text
nodes (the children carrying a `.data` attribute), list items, and the
fall-through case of any other element with children.  `ONodeList` is the
`childNodes` sequence; the mutual shape gives structural recursion. -/
mutual
inductive ONode where
  | textNode (data : String)
  | p (children : ONodeList)
  | h (outlinelevel : Option Nat) (children : ONodeList)
  | span (children : ONodeList)
  | olist (items : ONodeList)
  | listItem (children : ONodeList)
  | table (children : ONodeList)
  | other (children : ONodeList)

inductive ONodeList where
  | nil
  | cons (head : ONode) (tail : ONodeList)
end

/-- The comprehension
`"".join([node.data for node in element.childNodes if hasattr(node, 'data')])`:
only the direct text children contribute, element children are skipped. -/
def directText : ONodeList → String
  | .nil => ""
  | .cons (.textNode s) rest => s ++ directText rest
  | .cons _ rest => directText rest

/-- `"#" * heading_level`. -/
def hashString (n : Nat) : String := ⟨List.replicate n '#'⟩

/-- `"  " * level`. -/
def indentString (level : Nat) : String := ⟨List.replicate (2 * level) ' '⟩

/-- `int(outline_level) if outline_level else 1`. -/
def headingLevel (outlinelevel : Option Nat) : Nat := outlinelevel.getD 1

/-- The fixed text emitted for a table. -/
def tableLiteral : String := "\n| Table |\n| --- |\n\n"

/- `extract_text_from_elements`, split into the dispatch on one element
(`extractNode`), the loop over the list items of a `list` element
(`extractItems`, modelling the `list-item` search as the list-item
children), and the loop over a `childNodes` sequence (`extractNodes`).
A raw text node reaching the dispatcher matches no branch and contributes
nothing; it is only read by the direct-text comprehension of `p`, `h` and
`span`. -/
mutual
def extractNode (level : Nat) : ONode → String
  | .textNode _ => ""
  | .p children => directText children ++ "\n"
  | .h lvl children => hashString (headingLevel lvl) ++ " " ++ directText children ++ "\n"
  | .span children => directText children
  | .olist items => extractItems level items
  | .listItem children => extractNodes level children
  | .table _ => tableLiteral
  | .other children => extractNodes level children

def extractItems (level : Nat) : ONodeList → String
  | .nil => ""
  | .cons (.listItem children) rest =>
    indentString level ++ "- " ++ pyStrip (extractNodes (level + 1) children) ++ "\n"
      ++ extractItems level rest
  | .cons _ rest => extractItems level rest

def extractNodes (level : Nat) : ONodeList → String
  | .nil => ""
  | .cons n rest => extractNode level n ++ extractNodes level rest
end

/-! ### Serialize-and-reload: the body the forward path builds, seen again
by the reverse path.  A plain run was written with `addText`, so it reloads
as a direct text node; a styled run was written as a `Span` element wrapping
its text; an image paragraph contains only a frame element, no text. -/

def runsToONodeList : List Run → ONodeList
  | [] => .nil
  | .plain s :: rest => .cons (.textNode s) (runsToONodeList rest)
  | .styled s _ :: rest => .cons (.span (.cons (.textNode s) .nil)) (runsToONodeList rest)

/-- A flushed block as the reverse path sees it: `P()` reloads as a `p`
element, `H(outlinelevel=l)` as an `h` element carrying that level. -/
def blockToONode (b : Block) : ONode :=
  match b.kind with
  | .para => .p (runsToONodeList b.runs)
  | .heading lvl => .h (some lvl) (runsToONodeList b.runs)

/-- The whole document body as the reverse path sees it. -/
def bodyToONodes : List BodyNode → ONodeList
  | [] => .nil
  | .block b :: rest => .cons (blockToONode b) (bodyToONodes rest)
  | .imagePara _ :: rest => .cons (.p (.cons (.other .nil) .nil)) (bodyToONodes rest)

/-! ### Claim-side definitions (statements taken from the spec wording,
for comparison with the source-derived definitions above) -/

/-- The run the spec predicts for a Text event: styled after the stack top
(highlight entries through the highlight style table's naming scheme,
others through `str.capitalize`), or plain when the stack is empty. -/
def claimedRun (styleStack : List String) (data : String) : Run :=
  match styleStack with
  | top :: _ =>
    if strStarts top "highlight-" then
      .styled data ("Highlight" ++ pyCapitalize (strReplace top "highlight-" ""))
    else .styled data (pyCapitalize top)
  | [] => .plain data

/-- The block-level tags: `p`, `div`, `h1`..`h6`. -/
def blockTags : List String := ["p", "div", "h1", "h2", "h3", "h4", "h5", "h6"]

/-- Membership in `blockTags`. -/
def isBlockTag (t : String) : Bool := blockTags.contains t

/-- The inline style tags. -/
def inlineTags : List String := ["strong", "b", "em", "i", "span", "mark"]

/-- An event that is a text run or the start or end of an inline style
tag — never a block boundary, hard break or image. -/
def isInlineEvent : Event → Bool
  | .startTag t _ => inlineTags.contains t
  | .endTag t => inlineTags.contains t
  | .text _ => true

/-- Number of block-tag start events at top level (nesting depth 0 with
respect to block tags), the claim's count of top-level `p|div|h1..h6`
tags in the input. -/
def countTopAux : Nat → List Event → Nat
  | _, [] => 0
  | depth, .startTag t _ :: rest =>
    if isBlockTag t then (if depth = 0 then 1 else 0) + countTopAux (depth + 1) rest
    else countTopAux depth rest
  | depth, .endTag t :: rest =>
    if isBlockTag t then countTopAux (depth - 1) rest else countTopAux depth rest
  | depth, .text _ :: rest => countTopAux depth rest

/-- Top-level block-tag count of an event stream. -/
def countTopLevelBlockTags (events : List Event) : Nat := countTopAux 0 events

/-- Number of paragraph and heading nodes in a body: every body node is
one (an image is appended wrapped in a paragraph). -/
def countParaHeading (body : List BodyNode) : Nat := body.length

/-- The event is not an `img` start tag. -/
def notImgEvent : Event → Bool
  | .startTag t _ => t != "img"
  | _ => true

/-- The event stream contains no `img` start tag. -/
def noImgEvents (events : List Event) : Bool := events.all notImgEvent

/-- A top-level item of a well-formed input: a completely closed block
element whose content is inline events only, or a single inline event
between blocks. -/
inductive TopItem where
  | blockItem (tag : String) (attrs : List (String × String)) (inner : List Event)
  | inlineItem (e : Event)

/-- The event stream of one top-level item. -/
def itemEvents : TopItem → List Event
  | .blockItem tag attrs inner => Event.startTag tag attrs :: (inner ++ [Event.endTag tag])
  | .inlineItem e => [e]

/-- Well-formedness of a top-level item. -/
def validItem : TopItem → Bool
  | .blockItem tag _ inner => isBlockTag tag && inner.all isInlineEvent
  | .inlineItem e => isInlineEvent e

/-- Whether a top-level item is a block element. -/
def isBlockItem : TopItem → Bool
  | .blockItem _ _ _ => true
  | .inlineItem _ => false

/-! ### Helper lemmas -/

/-- A list is a Boolean prefix of itself followed by anything. -/
lemma isPrefixOf_append_self (l r : List Char) : l.isPrefixOf (l ++ r) = true := by
  induction l with
  | nil => cases r <;> rfl
  | cons c t ih => simp [List.isPrefixOf, ih]

/-- `strStarts` holds on any extension of the pattern. -/
lemma strStarts_append_self (s t : String) : strStarts (s ++ t) s = true := by
  show s.data.isPrefixOf (s ++ t).data = true
  have hdata : (s ++ t).data = s.data ++ t.data := rfl
  rw [hdata]
  exact isPrefixOf_append_self s.data t.data

/-- Appending a flushed block never adds an image frame. -/
lemma countImageFrames_append_block (l : List BodyNode) (b : Block) :
    countImageFrames (l ++ [.block b]) = countImageFrames l := by
  simp [countImageFrames, List.filter_append]

/-! ### C1 -/

/-- C1: the print size of an embedded image is `width_px / 96` by
`height_px / 96`; when the width exceeds 6 inches both dimensions are
rescaled by `6 / width_in`, so the width/height ratio is preserved exactly;
a 1200×800 px image gives 6 in × 4 in and a 480×320 px image stays at
5 in × 10/3 in. -/
theorem c1_print_size (wpx hpx : Nat) :
    ((wpx : ℚ) / 96 ≤ 6 → computePrintSize wpx hpx = ((wpx : ℚ) / 96, (hpx : ℚ) / 96)) ∧
    (6 < (wpx : ℚ) / 96 →
      computePrintSize wpx hpx = (6, (hpx : ℚ) / 96 * (6 / ((wpx : ℚ) / 96)))) ∧
    (computePrintSize wpx hpx).1 * (hpx : ℚ) = (computePrintSize wpx hpx).2 * (wpx : ℚ) ∧
    computePrintSize 1200 800 = (6, 4) ∧
    computePrintSize 480 320 = (5, 10 / 3) := by
  refine ⟨?_, ?_, ?_, ?_, ?_⟩
  · intro h
    simp only [computePrintSize, maxWidthIn, dpi]
    rw [if_neg (not_lt.mpr h)]
  · intro h
    simp only [computePrintSize, maxWidthIn, dpi]
    rw [if_pos h]
  · simp only [computePrintSize, maxWidthIn, dpi]
    split
    · rename_i h
      have hne : ((wpx : ℚ)) ≠ 0 := by
        intro h0
        rw [h0] at h
        norm_num at h
      field_simp
      ring
    · ring
  · norm_num [computePrintSize, maxWidthIn, dpi]
  · norm_num [computePrintSize, maxWidthIn, dpi]

/-- Witness for C1 at the 1200×800 px image. -/
theorem c1_print_size_witness :
    6 < (1200 : ℚ) / 96 ∧
    computePrintSize 1200 800 = (6, (800 : ℚ) / 96 * (6 / ((1200 : ℚ) / 96))) :=
  ⟨by norm_num, (c1_print_size 1200 800).2.1 (by norm_num)⟩

/-! ### C2 -/

/-- C2 counterexample: after `<mark data-color="pink">` the stack top is
`highlight-pink`, yet the run produced for a text event is plain — `pink`
is not in the highlight style table, so the applied style is not the stack
top the claim predicts. -/
theorem c2_counterexample :
    (processEvents ⟨"", fun _ => none⟩ initState
        [.startTag "mark" [("data-color", "pink")]]).styleStack = ["highlight-pink"] ∧
    styledRun ["highlight-pink"] "x" = .plain "x" ∧
    claimedRun ["highlight-pink"] "x" = .styled "x" "HighlightPink" ∧
    styledRun ["highlight-pink"] "x" ≠ claimedRun ["highlight-pink"] "x" := by
  decide

/-- C2 (amended): the run of a Text event depends only on the stack top
(last-pushed-wins, styles never compose): plain when the stack is empty,
the capitalized span style for a `bold`/`italic` top, the highlight span
style for a highlight top with a recognized color, and plain (not the top)
for a highlight top with an unrecognized color; the nested
strong-around-highlight example yields one run styled highlight-yellow,
not bold. -/
theorem c2_effective_style (data : String) :
    (∀ top rest rest', styledRun (top :: rest) data = styledRun (top :: rest') data) ∧
    styledRun [] data = .plain data ∧
    (∀ rest, styledRun ("bold" :: rest) data = .styled data "Bold") ∧
    (∀ rest, styledRun ("italic" :: rest) data = .styled data "Italic") ∧
    (∀ color rest, color ∈ colorList →
      styledRun (("highlight-" ++ color) :: rest) data
        = .styled data ("Highlight" ++ pyCapitalize color)) ∧
    (∀ top rest, strStarts top "highlight-" = true →
      strReplace top "highlight-" "" ∉ colorList →
      styledRun (top :: rest) data = .plain data) ∧
    (processEvents ⟨"", fun _ => none⟩ initState
        [.startTag "strong" [], .startTag "span" [("class", "text-highlight hl-yellow")],
         .text "x", .endTag "span", .endTag "strong"]).currentPara
      = some ⟨.para, [.styled "x" "HighlightYellow"]⟩ := by
  refine ⟨fun top rest rest' => rfl, rfl, fun rest => rfl, fun rest => rfl, ?_, ?_, by decide⟩
  · intro color rest hmem
    simp only [colorList, List.mem_cons, List.mem_singleton] at hmem
    rcases hmem with rfl | rfl | rfl | rfl | rfl | rfl | h
    · rfl
    · rfl
    · rfl
    · rfl
    · rfl
    · rfl
    · simp at h
  · intro top rest hs hc
    simp only [styledRun]
    rw [if_pos hs, if_neg hc]

/-- Witness for C2 at a recognized highlight color. -/
theorem c2_effective_style_witness :
    styledRun (("highlight-" ++ "yellow") :: []) "x"
      = .styled "x" ("Highlight" ++ pyCapitalize "yellow") :=
  (c2_effective_style "x").2.2.2.2.1 "yellow" [] (by decide)

/-! ### C3 -/

/-- C3: an img whose src parses to an `http`/`https` scheme and whose path
is not under the `/images/` route is skipped: `add_image` returns no frame,
the img handler adds no image frame to the body, and the concrete external
URL produces a body with zero image frames. -/
theorem c3_external_images (env : ImageEnv) (src : String)
    (hscheme : (urlparse src).scheme = "http" ∨ (urlparse src).scheme = "https")
    (hpath : strStarts (urlparse src).path "/images/" = false) :
    addImage env src = none ∧
    (∀ st, countImageFrames (handleStart env st "img" [("src", src)]).body
      = countImageFrames st.body) ∧
    countImageFrames (forwardBody env
      [.startTag "img" [("src", "http://example.com/x.png")]]) = 0 := by
  have key : addImage env src = none := by
    simp only [addImage]
    rw [if_neg (by rw [hpath]; exact Bool.false_ne_true), if_pos hscheme]
  refine ⟨key, ?_, rfl⟩
  intro st
  by_cases hsrc : src = ""
  · subst hsrc
    rfl
  · have hred : handleStart env st "img" [("src", src)] =
        { st with
          body := match st.currentPara with
            | some b => st.body ++ [.block b]
            | none => st.body,
          currentPara := some emptyP } := by
      show (if src = "" then st else _) = _
      rw [if_neg hsrc]
      show ConvState.mk _ _ (match addImage env src with
        | some f => _ ++ [BodyNode.imagePara f]
        | none => _) = _
      rw [key]
    rw [hred]
    cases st.currentPara with
    | none => rfl
    | some b => exact countImageFrames_append_block st.body b

/-- Witness for C3 at the concrete external URL. -/
theorem c3_external_images_witness :
    addImage ⟨"", fun _ => none⟩ "http://example.com/x.png" = none :=
  (c3_external_images ⟨"", fun _ => none⟩ "http://example.com/x.png"
    (Or.inl (by decide)) (by decide)).1

/-! ### C4 -/

/-- C4 counterexample: a `br` processed while no block is open is not a
no-op — the handler creates a fresh empty paragraph and appends it, so the
body grows by one (empty) paragraph node. -/
theorem c4_counterexample :
    initState.currentPara = none ∧
    (handleStart ⟨"", fun _ => none⟩ initState "br" []).body ≠ initState.body ∧
    (handleStart ⟨"", fun _ => none⟩ initState "br" []).body = [.block emptyP] := by
  decide

/-- C4 (amended): a `br` always appends one paragraph to the body — the
current block when one is open, a freshly created empty paragraph when none
is — and then opens a fresh empty paragraph as the current block. -/
theorem c4_br_flush (env : ImageEnv) (st : ConvState) (attrs : List (String × String)) :
    handleStart env st "br" attrs =
      { st with body := st.body ++ [.block (st.currentPara.getD emptyP)],
                currentPara := some emptyP } := rfl

/-! ### C5 -/

/-- Case split for a tag known to be a block tag. -/
lemma blockTag_cases (t : String) (ht : isBlockTag t = true) :
    t = "p" ∨ t = "div" ∨ t = "h1" ∨ t = "h2" ∨ t = "h3" ∨ t = "h4" ∨ t = "h5" ∨ t = "h6" := by
  simp only [isBlockTag, blockTags, List.contains_cons, List.contains_nil,
    Bool.or_eq_true, beq_iff_eq, Bool.false_eq_true, or_false] at ht
  exact ht

/-- Case split for a tag known to be an inline style tag. -/
lemma inlineTag_cases (t : String) (ht : inlineTags.contains t = true) :
    t = "strong" ∨ t = "b" ∨ t = "em" ∨ t = "i" ∨ t = "span" ∨ t = "mark" := by
  simp only [inlineTags, List.contains_cons, List.contains_nil,
    Bool.or_eq_true, beq_iff_eq, Bool.false_eq_true, or_false] at ht
  exact ht

/-- A span start either leaves the state unchanged or only pushes a
highlight entry on the style stack. -/
lemma handleStart_span_cases (env : ImageEnv) (st : ConvState)
    (attrs : List (String × String)) :
    handleStart env st "span" attrs = st ∨
    ∃ color, handleStart env st "span" attrs
      = { st with styleStack := ("highlight-" ++ color) :: st.styleStack } := by
  by_cases hc : strContains (attrGet attrs "class" "") "text-highlight" = true
  · cases hf : colorList.find?
        (fun color => strContains (attrGet attrs "class" "") ("hl-" ++ color)) with
    | none =>
      left
      show (if strContains (attrGet attrs "class" "") "text-highlight" = true
            then _ else st) = st
      rw [if_pos hc, hf]
    | some color =>
      right
      refine ⟨color, ?_⟩
      show (if strContains (attrGet attrs "class" "") "text-highlight" = true
            then _ else st) = _
      rw [if_pos hc, hf]
  · left
    show (if strContains (attrGet attrs "class" "") "text-highlight" = true
          then _ else st) = st
    rw [if_neg hc]

/-- A mark start either leaves the state unchanged or only pushes a
highlight entry on the style stack. -/
lemma handleStart_mark_cases (env : ImageEnv) (st : ConvState)
    (attrs : List (String × String)) :
    handleStart env st "mark" attrs = st ∨
    handleStart env st "mark" attrs
      = { st with styleStack :=
          ("highlight-" ++ attrGet attrs "data-color" "") :: st.styleStack } := by
  by_cases hdc : attrGet attrs "data-color" "" = ""
  · left
    show (if attrGet attrs "data-color" "" = "" then st else _) = st
    rw [if_pos hdc]
  · right
    show (if attrGet attrs "data-color" "" = "" then st else _) = _
    rw [if_neg hdc]

/-- An inline end tag only touches the style stack. -/
lemma handleEnd_inline_effect (st : ConvState) (t : String)
    (ht : inlineTags.contains t = true) :
    (handleEnd st t).body = st.body ∧ (handleEnd st t).currentPara = st.currentPara := by
  obtain ⟨cp, ss, bd⟩ := st
  rcases inlineTag_cases t ht with rfl | rfl | rfl | rfl | rfl | rfl <;>
    cases ss <;> simp [handleEnd, apply_ite]

/-- An inline event never appends to the body, and keeps a block open when
one was open. -/
lemma inlineEvent_effect (env : ImageEnv) (e : Event) (he : isInlineEvent e = true)
    (st : ConvState) :
    (handleEvent env st e).body = st.body ∧
    (st.currentPara.isSome = true → (handleEvent env st e).currentPara.isSome = true) := by
  cases e with
  | text data =>
    have hev : handleEvent env st (.text data) = handleData st data := rfl
    by_cases h : hasContent data = true
    · have hd : handleData st data
          = { st with currentPara := some { (st.currentPara.getD emptyP) with
              runs := (st.currentPara.getD emptyP).runs ++ [styledRun st.styleStack data] } } := by
        show (if hasContent data = true then _ else st) = _
        rw [if_pos h]
      rw [hev, hd]
      exact ⟨rfl, fun _ => rfl⟩
    · have hd : handleData st data = st := by
        show (if hasContent data = true then _ else st) = st
        rw [if_neg h]
      rw [hev, hd]
      exact ⟨rfl, fun hh => hh⟩
  | endTag t =>
    have eff := handleEnd_inline_effect st t he
    exact ⟨eff.1, fun hh => by
      show (handleEnd st t).currentPara.isSome = true
      rw [eff.2]; exact hh⟩
  | startTag t attrs =>
    rcases inlineTag_cases t he with rfl | rfl | rfl | rfl | rfl | rfl
    · exact ⟨rfl, fun hh => hh⟩
    · exact ⟨rfl, fun hh => hh⟩
    · exact ⟨rfl, fun hh => hh⟩
    · exact ⟨rfl, fun hh => hh⟩
    · have hev : handleEvent env st (.startTag "span" attrs)
          = handleStart env st "span" attrs := rfl
      rcases handleStart_span_cases env st attrs with h | ⟨color, h⟩ <;>
        rw [hev, h] <;> exact ⟨rfl, fun hh => hh⟩
    · have hev : handleEvent env st (.startTag "mark" attrs)
          = handleStart env st "mark" attrs := rfl
      rcases handleStart_mark_cases env st attrs with h | h <;>
        rw [hev, h] <;> exact ⟨rfl, fun hh => hh⟩

/-- Folding the handlers over a list of inline events leaves the body
unchanged and keeps a block open when one was open. -/
lemma processEvents_inline (env : ImageEnv) :
    ∀ (inner : List Event), inner.all isInlineEvent = true → ∀ st : ConvState,
    (processEvents env st inner).body = st.body ∧
    (st.currentPara.isSome = true →
      (processEvents env st inner).currentPara.isSome = true) := by
  intro inner
  induction inner with
  | nil => exact fun _ st => ⟨rfl, fun hh => hh⟩
  | cons e rest ih =>
    intro hall st
    simp only [List.all_cons, Bool.and_eq_true] at hall
    have h1 := inlineEvent_effect env e hall.1 st
    have h2 := ih hall.2 (handleEvent env st e)
    refine ⟨?_, ?_⟩
    · show (processEvents env (handleEvent env st e) rest).body = st.body
      rw [h2.1, h1.1]
    · intro hh
      exact h2.2 (h1.2 hh)

/-- A block start tag opens a fresh block and appends nothing. -/
lemma blockStart_effect (env : ImageEnv) (st : ConvState) (t : String)
    (ht : isBlockTag t = true) (attrs : List (String × String)) :
    (handleStart env st t attrs).body = st.body ∧
    (handleStart env st t attrs).currentPara.isSome = true := by
  rcases blockTag_cases t ht with rfl | rfl | rfl | rfl | rfl | rfl | rfl | rfl <;>
    exact ⟨rfl, rfl⟩

/-- A block end tag with an open block flushes exactly that block. -/
lemma blockEnd_append (st : ConvState) (t : String) (ht : isBlockTag t = true)
    (b : Block) (hb : st.currentPara = some b) :
    handleEnd st t = { st with body := st.body ++ [.block b], currentPara := none } := by
  obtain ⟨cp, ss, bd⟩ := st
  replace hb : cp = some b := hb
  subst hb
  rcases blockTag_cases t ht with rfl | rfl | rfl | rfl | rfl | rfl | rfl | rfl <;> rfl

/-- `processEvents` distributes over appended event streams. -/
lemma processEvents_append (env : ImageEnv) (st : ConvState) (l1 l2 : List Event) :
    processEvents env st (l1 ++ l2) = processEvents env (processEvents env st l1) l2 :=
  List.foldl_append (handleEvent env) st l1 l2

/-- Processing one well-formed top-level item appends exactly one block for
a block item and nothing for an inline item. -/
lemma forward_items_length (env : ImageEnv) :
    ∀ (items : List TopItem), items.all validItem = true → ∀ st : ConvState,
    (processEvents env st (items.flatMap itemEvents)).body.length
      = st.body.length + (items.filter isBlockItem).length := by
  intro items
  induction items with
  | nil => intro _ st; simp [processEvents]
  | cons i rest ih =>
    intro hall st
    simp only [List.all_cons, Bool.and_eq_true] at hall
    rw [List.flatMap_cons, processEvents_append]
    cases i with
    | inlineItem e =>
      have h1 : processEvents env st (itemEvents (.inlineItem e)) = handleEvent env st e := rfl
      rw [ih hall.2, h1, (inlineEvent_effect env e hall.1 st).1]
      simp [isBlockItem]
    | blockItem t attrs inner =>
      have hv := hall.1
      simp only [validItem, Bool.and_eq_true] at hv
      obtain ⟨ht, hinner⟩ := hv
      have hstep : processEvents env st (itemEvents (.blockItem t attrs inner))
          = handleEnd (processEvents env (handleStart env st t attrs) inner) t := by
        show processEvents env st
            (Event.startTag t attrs :: (inner ++ [Event.endTag t])) = _
        rw [show processEvents env st
              (Event.startTag t attrs :: (inner ++ [Event.endTag t]))
            = processEvents env (handleStart env st t attrs)
              (inner ++ [Event.endTag t]) from rfl,
          processEvents_append]
        rfl
      have hsome : (processEvents env (handleStart env st t attrs) inner).currentPara.isSome
          = true :=
        (processEvents_inline env inner hinner _).2 (blockStart_effect env st t ht attrs).2
      obtain ⟨b, hb⟩ := Option.isSome_iff_exists.mp hsome
      have hbody : (processEvents env st (itemEvents (.blockItem t attrs inner))).body
          = st.body ++ [BodyNode.block b] := by
        rw [hstep, blockEnd_append _ t ht b hb]
        show (processEvents env (handleStart env st t attrs) inner).body ++ _ = _
        rw [(processEvents_inline env inner hinner _).1,
          (blockStart_effect env st t ht attrs).1]
      rw [ih hall.2, hbody]
      simp [isBlockItem]
      omega

/-- One inline event never counts as a top-level block tag. -/
lemma countTopAux_inline_one (e : Event) (he : isInlineEvent e = true) (d : Nat)
    (rest : List Event) : countTopAux d (e :: rest) = countTopAux d rest := by
  cases e with
  | text data => rfl
  | startTag t attrs =>
    rcases inlineTag_cases t he with rfl | rfl | rfl | rfl | rfl | rfl <;> rfl
  | endTag t =>
    rcases inlineTag_cases t he with rfl | rfl | rfl | rfl | rfl | rfl <;> rfl

/-- Inline events are transparent for the top-level block-tag count. -/
lemma countTopAux_inline_list :
    ∀ (l : List Event), l.all isInlineEvent = true → ∀ (d : Nat) (rest : List Event),
    countTopAux d (l ++ rest) = countTopAux d rest := by
  intro l
  induction l with
  | nil => intro _ d rest; rfl
  | cons e t ih =>
    intro hall d rest
    simp only [List.all_cons, Bool.and_eq_true] at hall
    rw [List.cons_append, countTopAux_inline_one e hall.1, ih hall.2]

/-- One well-formed top-level item contributes exactly its block count to
the top-level block-tag count. -/
lemma countTop_item_step (i : TopItem) (hv : validItem i = true) (tail : List Event) :
    countTopAux 0 (itemEvents i ++ tail)
      = (if isBlockItem i = true then 1 else 0) + countTopAux 0 tail := by
  cases i with
  | inlineItem e =>
    show countTopAux 0 (e :: tail) = _
    rw [countTopAux_inline_one e hv]
    simp [isBlockItem]
  | blockItem t attrs inner =>
    simp only [validItem, Bool.and_eq_true] at hv
    obtain ⟨ht, hinner⟩ := hv
    show countTopAux 0 (Event.startTag t attrs :: ((inner ++ [Event.endTag t]) ++ tail)) = _
    rw [show (inner ++ [Event.endTag t]) ++ tail
        = inner ++ (Event.endTag t :: tail) by simp]
    have h1 : countTopAux 0 (Event.startTag t attrs :: (inner ++ (Event.endTag t :: tail)))
        = 1 + countTopAux 1 (inner ++ (Event.endTag t :: tail)) := by
      simp [countTopAux, ht]
    have h2 : countTopAux 1 (Event.endTag t :: tail) = countTopAux 0 tail := by
      simp [countTopAux, ht]
    rw [h1, countTopAux_inline_list inner hinner 1, h2]
    simp [isBlockItem]

/-- The top-level block-tag count of a well-formed input is its number of
block items. -/
lemma countTop_items :
    ∀ (items : List TopItem), items.all validItem = true → ∀ (tail : List Event),
    countTopAux 0 (items.flatMap itemEvents ++ tail)
      = (items.filter isBlockItem).length + countTopAux 0 tail := by
  intro items
  induction items with
  | nil => intro _ tail; simp
  | cons i rest ih =>
    intro hall tail
    simp only [List.all_cons, Bool.and_eq_true] at hall
    rw [List.flatMap_cons, List.append_assoc, countTop_item_step i hall.1, ih hall.2]
    cases i with
    | blockItem t attrs inner => simp [isBlockItem]; omega
    | inlineItem e => simp [isBlockItem]

/-- Inline events are never `img` start tags. -/
lemma notImg_of_inline (e : Event) (he : isInlineEvent e = true) : notImgEvent e = true := by
  cases e with
  | text _ => rfl
  | endTag _ => rfl
  | startTag t attrs =>
    rcases inlineTag_cases t he with rfl | rfl | rfl | rfl | rfl | rfl <;> rfl

/-- Well-formed inputs contain no `img` start tags. -/
lemma noImg_of_valid :
    ∀ (items : List TopItem), items.all validItem = true →
    noImgEvents (items.flatMap itemEvents) = true := by
  intro items
  induction items with
  | nil => intro _; rfl
  | cons i rest ih =>
    intro hall
    simp only [List.all_cons, Bool.and_eq_true] at hall
    show (itemEvents i ++ rest.flatMap itemEvents).all notImgEvent = true
    rw [List.all_append, Bool.and_eq_true]
    refine ⟨?_, ih hall.2⟩
    cases i with
    | inlineItem e =>
      show ([e].all notImgEvent) = true
      simp [notImg_of_inline e hall.1]
    | blockItem t attrs inner =>
      have hv := hall.1
      simp only [validItem, Bool.and_eq_true] at hv
      obtain ⟨ht, hinner⟩ := hv
      show (Event.startTag t attrs :: (inner ++ [Event.endTag t])).all notImgEvent = true
      simp only [List.all_cons, List.all_append, List.all_nil, Bool.and_eq_true,
        Bool.and_true]
      refine ⟨?_, ?_, ?_⟩
      · rcases blockTag_cases t ht with rfl | rfl | rfl | rfl | rfl | rfl | rfl | rfl <;> rfl
      · rw [List.all_eq_true]
        intro e hm
        exact notImg_of_inline e (by rw [List.all_eq_true] at hinner; exact hinner e hm)
      · rfl

/-- C5 counterexample: a lone `br` event stream contains no `img` tag, yet
the forward conversion appends one paragraph while the input has zero
top-level block tags, so the claimed equality fails. -/
theorem c5_counterexample :
    ¬ (∀ (env : ImageEnv) (events : List Event), noImgEvents events = true →
        countParaHeading (forwardBody env events) = countTopLevelBlockTags events) := by
  intro h
  have hc := h ⟨"", fun _ => none⟩ [.startTag "br" []] (by decide)
  exact absurd hc (by decide)

/-- C5 (amended): for inputs made of top-level items — completely closed
`p`/`div`/`h1..h6` blocks containing only text and inline style events,
and stray inline events between them, hence containing no `img` and no
`br` — the number of paragraph and heading nodes appended by the forward
conversion equals the number of top-level block tags in the input. -/
theorem c5_block_count (env : ImageEnv) (items : List TopItem)
    (hvalid : items.all validItem = true) :
    noImgEvents (items.flatMap itemEvents) = true ∧
    countParaHeading (forwardBody env (items.flatMap itemEvents))
      = countTopLevelBlockTags (items.flatMap itemEvents) := by
  refine ⟨noImg_of_valid items hvalid, ?_⟩
  show (processEvents env initState (items.flatMap itemEvents)).body.length = _
  rw [forward_items_length env items hvalid initState]
  have hc := countTop_items items hvalid []
  rw [List.append_nil] at hc
  show initState.body.length + (items.filter isBlockItem).length
      = countTopAux 0 (items.flatMap itemEvents)
  rw [hc]
  simp [initState, countTopAux]

/-- Witness for C5 on a two-block input with a stray inline run. -/
theorem c5_block_count_witness :
    countParaHeading (forwardBody ⟨"", fun _ => none⟩
        (([TopItem.blockItem "p" [] [.text "a"], TopItem.inlineItem (.text "x"),
          TopItem.blockItem "h2" []
            [.text "T", .startTag "em" [], .text "e", .endTag "em"]]).flatMap itemEvents))
      = countTopLevelBlockTags
        (([TopItem.blockItem "p" [] [.text "a"], TopItem.inlineItem (.text "x"),
          TopItem.blockItem "h2" []
            [.text "T", .startTag "em" [], .text "e", .endTag "em"]]).flatMap itemEvents) :=
  (c5_block_count ⟨"", fun _ => none⟩
    [TopItem.blockItem "p" [] [.text "a"], TopItem.inlineItem (.text "x"),
     TopItem.blockItem "h2" [] [.text "T", .startTag "em" [], .text "e", .endTag "em"]]
    (by decide)).2

/-! ### C6 -/

/-- C6: a table node on the reverse path emits exactly the fixed literal,
irrespective of its contents. -/
theorem c6_table_literal (level : Nat) (children : ONodeList) :
    extractNode level (.table children) = "\n| Table |\n| --- |\n\n" := rfl

/-! ### C7 -/

/-- C7: `<h2>Title</h2>` forward-converts to a single level-2 heading with
the text `Title`, and reverse extraction of that body gives `## Title\n`. -/
theorem c7_roundtrip :
    forwardBody ⟨"", fun _ => none⟩ [.startTag "h2" [], .text "Title", .endTag "h2"]
      = [.block ⟨.heading 2, [.plain "Title"]⟩] ∧
    extractNodes 0 (bodyToONodes (forwardBody ⟨"", fun _ => none⟩
        [.startTag "h2" [], .text "Title", .endTag "h2"])) = "## Title\n" := by
  exact ⟨by decide, by decide⟩

/-! ### C8 -/

/-- C8 counterexample: a balanced `<mark>`/`</mark>` pair with no
`data-color` attribute does not restore the style stack — the start pushes
nothing while the end pops, so a stack holding `bold` ends empty. -/
theorem c8_counterexample :
    (processEvents ⟨"", fun _ => none⟩ ⟨none, ["bold"], []⟩
        [.startTag "mark" [], .endTag "mark"]).styleStack = [] ∧
    (processEvents ⟨"", fun _ => none⟩ ⟨none, ["bold"], []⟩
        [.startTag "mark" [], .endTag "mark"]).styleStack ≠ ["bold"] := by
  decide

/-- C8 (amended): a directly nested balanced pair restores any style stack
for `strong`/`b`/`em`/`i` with any attributes, for a span carrying a
recognized highlight class, and for a `mark` carrying a non-empty
`data-color`; in particular each such pair started on the empty stack ends
on the empty stack. -/
theorem c8_balanced_pairs (env : ImageEnv) (st : ConvState) :
    (∀ t, t ∈ (["strong", "b", "em", "i"] : List String) → ∀ attrs,
      (processEvents env st [.startTag t attrs, .endTag t]).styleStack = st.styleStack) ∧
    (∀ attrs color,
      strContains (attrGet attrs "class" "") "text-highlight" = true →
      colorList.find? (fun c => strContains (attrGet attrs "class" "") ("hl-" ++ c))
        = some color →
      (processEvents env st [.startTag "span" attrs, .endTag "span"]).styleStack
        = st.styleStack) ∧
    (∀ attrs, attrGet attrs "data-color" "" ≠ "" →
      (processEvents env st [.startTag "mark" attrs, .endTag "mark"]).styleStack
        = st.styleStack) := by
  refine ⟨?_, ?_, ?_⟩
  · intro t ht attrs
    simp only [List.mem_cons, List.mem_singleton] at ht
    rcases ht with rfl | rfl | rfl | rfl | h
    · rfl
    · rfl
    · rfl
    · rfl
    · simp at h
  · intro attrs color hcls hfind
    show (handleEnd (handleStart env st "span" attrs) "span").styleStack = st.styleStack
    have hstart : handleStart env st "span" attrs =
        { st with styleStack := ("highlight-" ++ color) :: st.styleStack } := by
      show (if strContains (attrGet attrs "class" "") "text-highlight" = true
            then _ else st) = _
      rw [if_pos hcls, hfind]
    rw [hstart]
    simp [handleEnd, strStarts_append_self]
  · intro attrs hdc
    show (handleEnd (handleStart env st "mark" attrs) "mark").styleStack = st.styleStack
    have hstart : handleStart env st "mark" attrs =
        { st with styleStack :=
            ("highlight-" ++ attrGet attrs "data-color" "") :: st.styleStack } := by
      show (if attrGet attrs "data-color" "" = "" then st else _) = _
      rw [if_neg hdc]
    rw [hstart]
    rfl

/-- Witness for C8 at a `mark` with a non-empty `data-color`. -/
theorem c8_balanced_pairs_witness :
    (processEvents ⟨"", fun _ => none⟩ ⟨none, ["bold"], []⟩
        [.startTag "mark" [("data-color", "yellow")], .endTag "mark"]).styleStack
      = ["bold"] :=
  (c8_balanced_pairs ⟨"", fun _ => none⟩ ⟨none, ["bold"], []⟩).2.2
    [("data-color", "yellow")] (by decide)

/-! ### C9 -/

/-- C9: an end tag of strong/b/em/i/mark processed on an empty style stack
leaves the stack empty; the pop is guarded, so end-tag handling is total
on unbalanced input. -/
theorem c9_endtag_total (st : ConvState) (tag : String)
    (ht : tag ∈ (["strong", "b", "em", "i", "mark"] : List String))
    (hstack : st.styleStack = []) :
    (handleEnd st tag).styleStack = [] := by
  obtain ⟨cp, ss, bd⟩ := st
  replace hstack : ss = [] := hstack
  subst hstack
  simp only [List.mem_cons, List.mem_singleton] at ht
  rcases ht with rfl | rfl | rfl | rfl | rfl | h
  · rfl
  · rfl
  · rfl
  · rfl
  · rfl
  · simp at h

/-- Witness for C9 at the initial state and a `strong` end tag. -/
theorem c9_endtag_total_witness : (handleEnd ⟨none, [], []⟩ "strong").styleStack = [] :=
  c9_endtag_total ⟨none, [], []⟩ "strong" (by decide) rfl

/-! ### C10 -/

/-- C10: the line emitted for a paragraph or heading concatenates only its
direct text children; a span child contributes nothing to it, as the
concrete instance with a hidden span shows. -/
theorem c10_direct_text_only (level : Nat) (lvl : Option Nat) (children : ONodeList) :
    extractNode level (.p children) = directText children ++ "\n" ∧
    extractNode level (.h lvl children)
      = hashString (headingLevel lvl) ++ " " ++ directText children ++ "\n" ∧
    (∀ spanChildren rest, directText (.cons (.span spanChildren) rest) = directText rest) ∧
    extractNode 0 (.p (.cons (.span (.cons (.textNode "hidden") .nil))
        (.cons (.textNode "shown") .nil))) = "shown\n" := by
  refine ⟨rfl, rfl, fun spanChildren rest => rfl, by decide⟩

end MdOdt
